import Mathlib

/-!
Shallow embedding of the two containers in `src/main.rs` of the `donut`
repository: `RingBuf<T>` (the BoundedCircularQueue) and `Deque<T>` (the
GrowableDeque).  Raw memory is modelled as an unbounded heap
`Nat → Option T`, where `none` stands for an uninitialized slot; a raw
`ptr::write` at index `i` records the value at `i` even when `i` lies
beyond the allocated capacity (which in the real program is an
out-of-bounds write).  Rust's `%` on `usize` panics when the divisor is
zero; operations that can hit that panic return `Option`, with `none`
standing for the panic.  The claims are sequential, so the atomics in
`RingBuf` are read and written in program order.
-/

/-- Rust's `%` on `usize`: `a % b`, except that `b = 0` panics
(`attempt to calculate the remainder with a divisor of zero`),
modelled as `none`. -/
def rustMod (a b : Nat) : Option Nat :=
  if b = 0 then none else some (a % b)

/-- `RingBuf<T>` from `src/main.rs` (fields in source order:
`items`, `head`, `tail`, `size`, `len`; the atomics are modelled by
their plain values). -/
@[ext]
structure RingBuf (T : Type) where
  items : Nat → Option T
  head : Nat
  tail : Nat
  size : Nat
  len : Nat

namespace RingBuf

/-- `RingBuf::new(cap)`: fresh uninitialized block of `cap` slots,
`head = tail = len = 0`, `size = cap`. -/
def new (T : Type) (cap : Nat) : RingBuf T :=
  { items := fun _ => none, head := 0, tail := 0, size := cap, len := 0 }

/-- `RingBuf::push(item)`: fetch-update `tail := (tail + 1) % size`
(no fullness check; panics when `size = 0`), write `item` at the old
`tail`, then `len := (len + 1).min(size)`. -/
def push (q : RingBuf T) (item : T) : Option (RingBuf T) :=
  match rustMod (q.tail + 1) q.size with
  | none => none
  | some t =>
    some { q with
            tail := t
            items := fun i => if i = q.tail then some item else q.items i
            len := min (q.len + 1) q.size }

/-- `RingBuf::pop()`: `None` when `len = 0`; otherwise fetch-update
`head := (head + 1) % size` (panics when `size = 0`), read the slot at
the old `head`, and `len := len - 1`.  The value read from the slot is
its current content (`ptr::read` on an uninitialized slot is UB and is
modelled as `none` inside the returned pair). -/
def pop (q : RingBuf T) : Option (Option T × RingBuf T) :=
  if q.len = 0 then some (none, q)
  else
    match rustMod (q.head + 1) q.size with
    | none => none
    | some h =>
      some (q.items q.head, { q with head := h, len := q.len - 1 })

/-- `RingBuf::resize(new_size)`: `realloc` preserves the block contents
linearly (modelled by leaving the heap unchanged), then `size :=
new_size`, `head := 0`, `tail := len`. -/
def resize (q : RingBuf T) (new_size : Nat) : RingBuf T :=
  { q with size := new_size, head := 0, tail := q.len }

/-- The slot indices dropped by `<RingBuf as Drop>::drop`: the linear
Rust range `head..tail` (empty when `tail ≤ head`) — not a modular
traversal of the live range. -/
def dropIndices (q : RingBuf T) : List Nat :=
  List.range' q.head (q.tail - q.head)

/-- The slot indices that actually hold the `len` live elements:
`len` positions starting at `head`, advancing modulo `size`. -/
def liveIndices (q : RingBuf T) : List Nat :=
  (List.range q.len).map (fun i => (q.head + i) % q.size)

/-- Push a whole list, left to right, propagating the panic. -/
def pushAll (q : RingBuf T) : List T → Option (RingBuf T)
  | [] => some q
  | v :: vs =>
    match q.push v with
    | none => none
    | some q2 => q2.pushAll vs

/-- Pop `n` times, collecting the returned values, propagating the
panic. -/
def popN (q : RingBuf T) : Nat → Option (List (Option T) × RingBuf T)
  | 0 => some ([], q)
  | n + 1 =>
    match q.pop with
    | none => none
    | some (v, q2) =>
      match q2.popN n with
      | none => none
      | some (vs, q3) => some (v :: vs, q3)

end RingBuf

/-- A single sequential operation on a `RingBuf`. -/
inductive RBOp (T : Type) where
  | pushO : T → RBOp T
  | popO : RBOp T

namespace RingBuf

/-- Apply one operation, discarding the popped value. -/
def applyOp (q : RingBuf T) : RBOp T → Option (RingBuf T)
  | .pushO x => q.push x
  | .popO => q.pop.map Prod.snd

/-- Run a sequence of operations, propagating the panic. -/
def runOps (q : RingBuf T) : List (RBOp T) → Option (RingBuf T)
  | [] => some q
  | op :: ops =>
    match q.applyOp op with
    | none => none
    | some q2 => q2.runOps ops

/-- A wrapped-around `RingBuf` state reached by real operations:
capacity 2, push 1, push 2, pop (returns 1), push 3.  Afterwards
`head = tail = 1`, `len = 2`, and the live elements sit at slots 1
(value 2, the oldest) and 0 (value 3). -/
def wrappedQ : Option (RingBuf Nat) :=
  ((RingBuf.new Nat 2).push 1).bind fun q =>
    (q.push 2).bind fun q2 =>
      q2.pop.bind fun p =>
        p.2.push 3

end RingBuf

/-- `Deque<T>` from `src/main.rs` (fields in source order:
`items`, `head`, `tail`, `len`, `size`). -/
@[ext]
structure Deque (T : Type) where
  items : Nat → Option T
  head : Nat
  tail : Nat
  len : Nat
  size : Nat

namespace Deque

/-- `Deque::new()`: capacity 4, `head = tail = 2`, empty. -/
def new (T : Type) : Deque T :=
  { items := fun _ => none, head := 2, tail := 2, len := 0, size := 4 }

/-- `Deque::with_capacity(cap)`: capacity `cap`,
`head = tail = cap / 2`, empty. -/
def with_capacity (T : Type) (cap : Nat) : Deque T :=
  { items := fun _ => none, head := cap / 2, tail := cap / 2, len := 0,
    size := cap }

/-- `Deque::resize(new_size)`: allocate a fresh block, copy the `len`
slots starting at `head` to destination offset `head + size` (old
size), release the old block, then `size := new_size`,
`head := head + new_size / 2`, `tail := tail + new_size / 2`
(the division uses the already-updated `size`). -/
def resize (q : Deque T) (new_size : Nat) : Deque T :=
  { items := fun i =>
      if q.head + q.size ≤ i ∧ i < q.head + q.size + q.len then
        q.items (q.head + (i - (q.head + q.size)))
      else none
    head := q.head + new_size / 2
    tail := q.tail + new_size / 2
    len := q.len
    size := new_size }

/-- `Deque::push_front(item)`: grow (double) when `head = 0`, then
`head := head - 1` and write `item` at the new `head`, `len += 1`.
(The `usize` underflow when `head = 0` persists after a degenerate
zero-capacity resize is not reachable in the verified states.) -/
def push_front (q : Deque T) (item : T) : Deque T :=
  let q2 := if q.head = 0 then q.resize (q.size * 2) else q
  { q2 with
    head := q2.head - 1
    items := fun i => if i = q2.head - 1 then some item else q2.items i
    len := q2.len + 1 }

/-- `Deque::push_back(item)`: grow (double) when `tail = size`, then
write `item` at `tail` and `tail += 1`, `len += 1`. -/
def push_back (q : Deque T) (item : T) : Deque T :=
  let q2 := if q.tail = q.size then q.resize (q.size * 2) else q
  { q2 with
    items := fun i => if i = q2.tail then some item else q2.items i
    tail := q2.tail + 1
    len := q2.len + 1 }

/-- The element list built by `<Deque as Debug>::fmt`: the slots
`head..size` then `0..tail` when `head > tail`, else the slots
`head..tail`. -/
def debugItems (q : Deque T) : List (Option T) :=
  if q.tail < q.head then
    ((List.range' q.head (q.size - q.head)).map q.items)
      ++ ((List.range q.tail).map q.items)
  else
    (List.range' q.head (q.tail - q.head)).map q.items

/-- The slot indices that `<Deque as Debug>::fmt` dereferences (via
`as_ref`): `head..size` then `0..tail` when `head > tail`, else
`head..tail` — with no check that they lie inside the allocated
block. -/
def debugReadIndices (q : Deque T) : List Nat :=
  if q.tail < q.head then
    List.range' q.head (q.size - q.head) ++ List.range q.tail
  else
    List.range' q.head (q.tail - q.head)

/-- The state after `Deque::new::<Nat>()` followed by
`push_back 11; push_back 12`: `head = 2`, `tail = 4 = size`. -/
def d2 : Deque Nat :=
  ((Deque.new Nat).push_back 11).push_back 12

/-- `d2` followed by one more `push_back 13`, which triggers
`resize(8)`. -/
def d3 : Deque Nat :=
  d2.push_back 13

end Deque

/-- The `RingBuf` state reached after pushing the first `j ≤ full.length`
elements of `full` were popped again, when `full` was pushed onto a
fresh queue of capacity `cap ≥ full.length`: slot `i` holds `full[i]`,
`head` is `j` (mod `cap`), `tail` is `full.length` (mod `cap`), and
`len` counts the remaining elements. -/
def RingBuf.midState (T : Type) (cap : Nat) (full : List T) (j : Nat) :
    RingBuf T :=
  { items := fun i => full[i]?
    head := j % cap
    tail := full.length % cap
    size := cap
    len := full.length - j }

/-- Claim C1: the claim says a push onto a full `RingBuf` signals
QueueFull/CapacityExceeded and overwrites no live slot.  The code has no
fullness check: on a full capacity-1 queue holding 10, a second push
succeeds, overwrites slot 0 with 20 (the live 10 is lost without being
dropped), leaves `len` clamped at 1, and the next pop returns 20
instead of 10. -/
theorem RingBuf.push_full_overwrites_live_slot :
    ∃ q1 q2, (RingBuf.new Nat 1).push 10 = some q1 ∧
      q1.len = 1 ∧ q1.size = 1 ∧ q1.items 0 = some 10 ∧
      q1.push 20 = some q2 ∧
      q2.len = 1 ∧ q2.items 0 = some 20 ∧
      q2.pop.map (fun p => p.1) = some (some 20) :=
  ⟨_, _, rfl, rfl, rfl, rfl, rfl, rfl, rfl, rfl⟩

/-- Claim C2: the claim says every `push_back` write lands strictly
below `cap` and `tail ≤ cap` is preserved.  From `Deque::new` (capacity
4, `head = tail = 2`), three `push_back`s make the third trigger
`resize(8)`, after which `tail = 8 = size`; the write then lands at
index 8 — one past the block — and `tail` becomes `9 > size`. -/
theorem Deque.push_back_writes_outside_block :
    Deque.d3.size = 8 ∧ Deque.d3.tail = 9 ∧ Deque.d3.items 8 = some 13 :=
  ⟨rfl, rfl, rfl⟩

/-- Claim C3: the claim says growth re-centers the live range so that
`head > 0` and `tail < new_capacity` hold afterwards, the sequence is
unchanged, and all copies stay in the new block.  On the state `d2`
(`head = 2`, `tail = 4`, `size = 4`, elements 11, 12), doubling to 8
yields `tail = 8 = new size` (no back headroom at all), and a growth
factor of 4 (`resize 16`) sets `head = 10`, `tail = 12` while the data
was copied to slots 6 and 7 — the live range points at uninitialized
slots and the element sequence is lost. -/
theorem Deque.resize_leaves_no_back_headroom :
    (Deque.d2.resize (Deque.d2.size * 2)).size = 8 ∧
    (Deque.d2.resize (Deque.d2.size * 2)).tail = 8 ∧
    (Deque.d2.resize 16).head = 10 ∧ (Deque.d2.resize 16).tail = 12 ∧
    (Deque.d2.resize 16).items 10 = none ∧
    (Deque.d2.resize 16).items 6 = some 11 ∧
    (Deque.d2.resize 16).items 7 = some 12 :=
  ⟨rfl, rfl, rfl, rfl, rfl, rfl, rfl⟩

/-- Claim C4: the claim says destruction drops the `count` live
elements starting at `head` advancing modulo `cap`.  The `Drop` impl
iterates the linear range `head..tail` instead: in the wrapped state
`wrappedQ` (`head = tail = 1`, `len = 2`, live values 2 at slot 1 and
3 at slot 0) that range is empty, so no live element is dropped at all,
while the modular live range is slots 1 then 0. -/
theorem RingBuf.drop_misses_wrapped_elements :
    ∃ q, RingBuf.wrappedQ = some q ∧ q.len = 2 ∧ q.head = 1 ∧ q.tail = 1 ∧
      q.items 0 = some 3 ∧ q.items 1 = some 2 ∧
      q.dropIndices = [] ∧ q.liveIndices = [1, 0] :=
  ⟨_, rfl, rfl, rfl, rfl, rfl, rfl, rfl, rfl⟩

/-- Claim C6: the claim says `RingBuf::resize` places the live elements
at the low end of the new block oldest first, so a drain still returns
push order.  The code reallocates (preserving the physical layout) and
just sets `head = 0`, `tail = len`: in the wrapped state `wrappedQ`
(logical order 2 then 3, physically 3 at slot 0 and 2 at slot 1), after
`resize 4` the low end holds 3 then 2 and the first pop returns 3 — the
newest element — instead of the oldest, 2. -/
theorem RingBuf.resize_breaks_logical_order :
    ∃ q, RingBuf.wrappedQ = some q ∧
      (q.resize 4).head = 0 ∧ (q.resize 4).tail = 2 ∧
      (q.resize 4).items 0 = some 3 ∧ (q.resize 4).items 1 = some 2 ∧
      (q.resize 4).pop.map (fun p => p.1) = some (some 3) :=
  ⟨_, rfl, rfl, rfl, rfl, rfl, rfl⟩

/-- Claim C8: the claim says a capacity-0 `RingBuf` is either rejected
at construction or behaves as permanently full and empty with no
operation panicking.  `RingBuf::new(0)` succeeds (`size = 0`), a pop
does return `None` harmlessly, but a push computes `(tail + 1) % 0`
inside `fetch_update` and panics (modelled as `none`) instead of
signalling full. -/
theorem RingBuf.push_capacity_zero_panics :
    (RingBuf.new Nat 0).size = 0 ∧ (RingBuf.new Nat 0).push 7 = none ∧
    (RingBuf.new Nat 0).pop = some (none, RingBuf.new Nat 0) :=
  ⟨rfl, rfl, rfl⟩

/-- Claim C7: popping an empty `RingBuf` (`len = 0`) returns `None` and
returns the state unchanged; repeated pops keep returning `None` with
the state unchanged; and on a positive-capacity queue a subsequent push
succeeds, stores the element at `tail`, and sets `len = 1`. -/
theorem RingBuf.pop_empty_idempotent (T : Type) (q : RingBuf T) (v : T)
    (h : q.len = 0) :
    q.pop = some (none, q) ∧
    (∀ n, q.popN n = some (List.replicate n none, q)) ∧
    (0 < q.size → ∃ q2, q.push v = some q2 ∧ q2.len = 1 ∧
      q2.items q.tail = some v) := by
  have hpop : q.pop = some (none, q) := by simp [pop, h]
  refine ⟨hpop, ?_, ?_⟩
  · intro n
    induction n with
    | zero => simp [popN]
    | succ n ih => simp [popN, hpop, ih, List.replicate_succ]
  · intro hs
    have hsz : q.size ≠ 0 := by omega
    refine ⟨{ q with
              tail := (q.tail + 1) % q.size
              items := fun i => if i = q.tail then some v else q.items i
              len := min (q.len + 1) q.size }, ?_, ?_, ?_⟩
    · simp [push, rustMod, hsz]
    · show min (q.len + 1) q.size = 1
      omega
    · simp

/-- Witness for C7 at the concrete empty queue `RingBuf.new Nat 3`. -/
theorem RingBuf.pop_empty_idempotent_witness :
    (RingBuf.new Nat 3).len = 0 ∧
    ((RingBuf.new Nat 3).pop = some (none, RingBuf.new Nat 3) ∧
      (∀ n, (RingBuf.new Nat 3).popN n
        = some (List.replicate n none, RingBuf.new Nat 3)) ∧
      (0 < (RingBuf.new Nat 3).size →
        ∃ q2, (RingBuf.new Nat 3).push 5 = some q2 ∧ q2.len = 1 ∧
          q2.items (RingBuf.new Nat 3).tail = some 5)) :=
  ⟨rfl, RingBuf.pop_empty_idempotent Nat (RingBuf.new Nat 3) 5 rfl⟩

/-- Any run of pushes and pops from a state with `size = cap > 0` and
`len ≤ cap` succeeds (no `% 0` panic) and preserves both facts: a push
clamps `len` at `cap` via `(len + 1).min(cap)` and a pop only
decrements a non-zero `len`. -/
theorem RingBuf.runOps_preserves (T : Type) (cap : Nat) (hcap : 0 < cap) :
    ∀ (ops : List (RBOp T)) (q : RingBuf T), q.size = cap → q.len ≤ cap →
      ∃ q2, q.runOps ops = some q2 ∧ q2.size = cap ∧ q2.len ≤ cap := by
  intro ops
  induction ops with
  | nil => exact fun q hs hl => ⟨q, rfl, hs, hl⟩
  | cons op ops ih =>
    intro q hs hl
    have hsz : q.size ≠ 0 := by omega
    cases op with
    | pushO x =>
      have hstep : q.applyOp (.pushO x)
          = some { q with
                    tail := (q.tail + 1) % q.size
                    items := fun i => if i = q.tail then some x else q.items i
                    len := min (q.len + 1) q.size } := by
        simp [applyOp, push, rustMod, hsz]
      obtain ⟨q2, h2, hs2, hl2⟩ := ih { q with
          tail := (q.tail + 1) % q.size
          items := fun i => if i = q.tail then some x else q.items i
          len := min (q.len + 1) q.size }
        (by simpa using hs) (by show min (q.len + 1) q.size ≤ cap; omega)
      exact ⟨q2, by simp [runOps, hstep, h2], hs2, hl2⟩
    | popO =>
      by_cases h0 : q.len = 0
      · have hstep : q.applyOp .popO = some q := by
          simp [applyOp, pop, h0]
        obtain ⟨q2, h2, hs2, hl2⟩ := ih q hs hl
        exact ⟨q2, by simp [runOps, hstep, h2], hs2, hl2⟩
      · have hstep : q.applyOp .popO
            = some { q with
                      head := (q.head + 1) % q.size
                      len := q.len - 1 } := by
          simp [applyOp, pop, h0, rustMod, hsz]
        obtain ⟨q2, h2, hs2, hl2⟩ := ih { q with
            head := (q.head + 1) % q.size
            len := q.len - 1 }
          (by simpa using hs) (by show q.len - 1 ≤ cap; omega)
        exact ⟨q2, by simp [runOps, hstep, h2], hs2, hl2⟩

/-- Claim C10: from `RingBuf::new(cap)` with `cap > 0`, every sequence
of pushes and pops runs without panic and ends in a state with
`len ≤ cap` (and `size` still `cap`): `len` never exceeds the capacity
and never underflows. -/
theorem RingBuf.len_le_cap_invariant (T : Type) (cap : Nat) (hcap : 0 < cap)
    (ops : List (RBOp T)) :
    ∃ q, (RingBuf.new T cap).runOps ops = some q ∧ q.size = cap ∧
      q.len ≤ cap :=
  RingBuf.runOps_preserves T cap hcap ops (RingBuf.new T cap) rfl
    (Nat.zero_le cap)

/-- Witness for C10: capacity 2, three pushes (one past full) and a
pop. -/
theorem RingBuf.len_le_cap_invariant_witness :
    0 < 2 ∧ ∃ q, (RingBuf.new Nat 2).runOps
        [RBOp.pushO 1, RBOp.pushO 2, RBOp.pushO 3, RBOp.popO] = some q ∧
      q.size = 2 ∧ q.len ≤ 2 :=
  ⟨by decide, RingBuf.len_le_cap_invariant Nat 2 (by decide)
    [RBOp.pushO 1, RBOp.pushO 2, RBOp.pushO 3, RBOp.popO]⟩

/-- A fresh queue is the mid-state with nothing pushed and nothing
popped. -/
theorem RingBuf.new_eq_midState (T : Type) (cap : Nat) :
    RingBuf.new T cap = RingBuf.midState T cap ([] : List T) 0 := by
  ext i <;> simp [new, midState]

/-- Pushing `vs` onto the mid-state holding `p` (nothing popped yet)
succeeds and yields the mid-state holding `p ++ vs`, as long as
everything fits in the capacity. -/
theorem RingBuf.pushAll_midState (T : Type) (cap : Nat) :
    ∀ (vs p : List T), p.length + vs.length ≤ cap →
      (RingBuf.midState T cap p 0).pushAll vs
        = some (RingBuf.midState T cap (p ++ vs) 0) := by
  intro vs
  induction vs with
  | nil => intro p h; simp [pushAll]
  | cons v vs ih =>
    intro p h
    simp only [List.length_cons] at h
    have hlt : p.length < cap := by omega
    have hc : cap ≠ 0 := by omega
    have hmod : p.length % cap = p.length := Nat.mod_eq_of_lt hlt
    have hstep : (RingBuf.midState T cap p 0).push v
        = some (RingBuf.midState T cap (p ++ [v]) 0) := by
      simp only [push, midState, rustMod, hc, ite_false]
      refine congrArg some (RingBuf.ext ?_ ?_ ?_ ?_ ?_)
      · funext i
        show (if i = p.length % cap then some v else p[i]?) = (p ++ [v])[i]?
        rw [hmod]
        rcases Nat.lt_trichotomy i p.length with hi | hi | hi
        · rw [if_neg (by omega), List.getElem?_append_left hi]
        · subst hi
          rw [if_pos rfl, List.getElem?_concat_length]
        · rw [if_neg (by omega), List.getElem?_eq_none (by omega),
            List.getElem?_eq_none (by simp; omega)]
      · rfl
      · show (p.length % cap + 1) % cap = (p ++ [v]).length % cap
        rw [hmod]; simp
      · rfl
      · show min (p.length - 0 + 1) cap = (p ++ [v]).length - 0
        simp
        omega
    rw [pushAll, hstep]
    have := ih (p ++ [v]) (by simp; omega)
    simpa using this

/-- Popping `k` of the remaining elements from the mid-state advances
the pop index by `k` and returns exactly those elements, in order, each
as `some`. -/
theorem RingBuf.popN_midState (T : Type) (cap : Nat) (full : List T)
    (hfull : full.length ≤ cap) :
    ∀ (k j : Nat), j + k ≤ full.length →
      (RingBuf.midState T cap full j).popN k
        = some (((full.drop j).take k).map some,
            RingBuf.midState T cap full (j + k)) := by
  intro k
  induction k with
  | zero => intro j h; simp [popN]
  | succ k ih =>
    intro j h
    have hj : j < full.length := by omega
    have hc : cap ≠ 0 := by omega
    have hjm : j % cap = j := Nat.mod_eq_of_lt (by omega)
    have hlen : full.length - j ≠ 0 := by omega
    have hstep : (RingBuf.midState T cap full j).pop
        = some (full[j]?, RingBuf.midState T cap full (j + 1)) := by
      simp only [pop, midState, rustMod]
      rw [if_neg hlen, if_neg hc]
      refine congrArg some ?_
      refine congrArg₂ Prod.mk ?_ ?_
      · rw [hjm]
      · ext i
        · rfl
        · show (j % cap + 1) % cap = (j + 1) % cap
          rw [hjm]
        · rfl
        · rfl
        · show full.length - j - 1 = full.length - (j + 1)
          omega
    have hrec := ih (j + 1) (by omega)
    simp only [popN, hstep]
    rw [hrec]
    have hdrop : full.drop j = full[j] :: full.drop (j + 1) :=
      List.drop_eq_getElem_cons hj
    have hidx : j + 1 + k = j + (k + 1) := by omega
    rw [List.getElem?_eq_getElem hj, hdrop, hidx]
    simp only [List.take_succ_cons, List.map_cons]

/-- Claim C5: for any list of values fitting in the capacity, pushing
them all onto a fresh `RingBuf` and then popping as many times returns
exactly those values, in push order, each as `some`, and leaves the
queue empty (`len = 0`). -/
theorem RingBuf.fifo_push_then_pop (T : Type) (vals : List T) (cap : Nat)
    (h : vals.length ≤ cap) :
    ∃ q q2, (RingBuf.new T cap).pushAll vals = some q ∧
      q.popN vals.length = some (vals.map some, q2) ∧ q2.len = 0 := by
  refine ⟨RingBuf.midState T cap vals 0,
    RingBuf.midState T cap vals vals.length, ?_, ?_, ?_⟩
  · rw [RingBuf.new_eq_midState]
    have := RingBuf.pushAll_midState T cap vals [] (by simpa using h)
    simpa using this
  · have := RingBuf.popN_midState T cap vals h vals.length 0 (by omega)
    simpa using this
  · simp [midState]

/-- Witness for C5: three values into a capacity-4 queue. -/
theorem RingBuf.fifo_push_then_pop_witness :
    ([3, 1, 2] : List Nat).length ≤ 4 ∧
    ∃ q q2, (RingBuf.new Nat 4).pushAll [3, 1, 2] = some q ∧
      q.popN 3 = some ([some 3, some 1, some 2], q2) ∧ q2.len = 0 :=
  ⟨by decide, RingBuf.fifo_push_then_pop Nat [3, 1, 2] 4 (by decide)⟩

/-- Claim C9: the claim says the Debug view lists the live elements
front-to-back in logical order for every push sequence from a fresh
deque.  The ordering logic of the non-wrapped branch is sound, but on
the reachable state `d3` (three `push_back`s from `Deque::new`, whose
growth leaves `head = 6`, `tail = 9` on an 8-slot block) the Debug pass
dereferences slots 6, 7 and 8 — slot 8 lies one past the allocation, so
the source reads unowned memory there; the listing recovers 11, 12, 13
only because the model's unbounded heap retains the out-of-bounds write
of C2, where the real program guarantees nothing. -/
theorem Deque.debug_reads_outside_block :
    Deque.d3.size = 8 ∧ Deque.debugReadIndices Deque.d3 = [6, 7, 8] ∧
    Deque.debugItems Deque.d3 = [some 11, some 12, some 13] :=
  ⟨rfl, rfl, rfl⟩
